import Mathlib

/-!
Verification of the `content-type` module (src/index.ts): shallow embedding
of its grammar primitives, `format` and `parse`, together with theorems
checking the natural-language specification against the code.

JS strings are modelled as `List Char` (one element per UTF-16 code unit;
every input considered here stays inside the basic multilingual plane, where
code units and scalar values coincide).
-/

namespace CT

/-- Set of `tchar` characters, from `TOKEN_REGEXP` and the token branches of
`PARAM_REGEXP` and `TYPE_REGEXP`: the literals of the character class
`[!#$%&'*+.^_\x60|~0-9A-Za-z-]`. -/
def tchar (c : Char) : Bool :=
  let n := c.toNat
  [33, 35, 36, 37, 38, 39, 42, 43, 45, 46, 94, 95, 96, 124, 126].contains n
    || (48 ≤ n && n ≤ 57) || (65 ≤ n && n ≤ 90) || (97 ≤ n && n ≤ 122)

/-- Characters of the `qdtext` branch inside `PARAM_REGEXP`:
the class is VT (0x0B) together with 0x20, 0x21, 0x23-0x5B, 0x5D-0x7E and 0x80-0xFF. -/
def qdtextChar (c : Char) : Bool :=
  let n := c.toNat
  n = 0x0b || n = 0x20 || n = 0x21 || (0x23 ≤ n && n ≤ 0x5b)
    || (0x5d ≤ n && n ≤ 0x7e) || (0x80 ≤ n && n ≤ 0xff)

/-- Characters allowed after a backslash, from `QESC_REGEXP` and the escape
branch of `PARAM_REGEXP`: the class `[\x0b\x20-\xff]`. -/
def qpairChar (c : Char) : Bool :=
  let n := c.toNat
  n = 0x0b || (0x20 ≤ n && n ≤ 0xff)

/-- Characters of `TEXT_REGEXP`: the class `[\x0b\x20-\x7e\x80-\xff]`.
Note the class contains 0x0B (vertical tab), not 0x09, and it does contain
the double quote (0x22) and the backslash (0x5C). -/
def textChar (c : Char) : Bool :=
  let n := c.toNat
  n = 0x0b || (0x20 ≤ n && n ≤ 0x7e) || (0x80 ≤ n && n ≤ 0xff)

/-- Whitespace stripped by JS `String.prototype.trim` (WhiteSpace and
LineTerminator code points). -/
def wsChar (c : Char) : Bool :=
  let n := c.toNat
  [9, 10, 11, 12, 13, 32, 0xa0, 0x1680, 0x2028, 0x2029, 0x202f, 0x205f,
    0x3000, 0xfeff].contains n || (0x2000 ≤ n && n ≤ 0x200a)

/-- JS `toLowerCase`, restricted to ASCII letters.  The source only
lower-cases strings that already passed `TYPE_REGEXP` or were captured by the
token group of `PARAM_REGEXP`, hence contain `tchar` characters only, so the
ASCII case map is exact there. -/
def jsToLowerChar (c : Char) : Char :=
  if 65 ≤ c.toNat && c.toNat ≤ 90 then Char.ofNat (c.toNat + 32) else c

def jsToLower (s : List Char) : List Char := s.map jsToLowerChar

/-- Test for `TOKEN_REGEXP = /^[tchar]+$/`. -/
def tokenTest (s : List Char) : Bool := !s.isEmpty && s.all tchar

/-- Test for `TEXT_REGEXP = /^[\x0b\x20-\x7e\x80-\xff]+$/`. -/
def textTest (s : List Char) : Bool := !s.isEmpty && s.all textChar

/-- Test for `TYPE_REGEXP = /^[tchar]+\/[tchar]+$/`.  Since `/` is not a
`tchar`, the greedy first group must be the maximal leading `tchar` run. -/
def typeTest (s : List Char) : Bool :=
  let a := s.takeWhile tchar
  match s.dropWhile tchar with
  | c :: b => c.toNat = 47 && !a.isEmpty && !b.isEmpty && b.all tchar
  | [] => false

/-- The replacement `str.replace(QUOTE_REGEXP, '\\$1')` in `qstring`:
prefix every `\` and `"` with a backslash. -/
def quoteEscape : List Char → List Char
  | [] => []
  | c :: r =>
    if c.toNat = 34 ∨ c.toNat = 92 then Char.ofNat 92 :: c :: quoteEscape r
    else c :: quoteEscape r

/-- Error kinds thrown by the module (each `TypeError` message). -/
inductive Err
  /-- message `argument string is required` -/
  | argumentRequired
  /-- message `invalid media type` -/
  | invalidMediaType
  /-- message `invalid parameter format` -/
  | invalidParameterFormat
  /-- message `content-type header is missing from object` -/
  | contentTypeMissing
  /-- message `invalid type` -/
  | invalidType
  /-- message `invalid parameter name` -/
  | invalidParameterName
  /-- message `invalid parameter value` -/
  | invalidParameterValue
deriving DecidableEq

instance {ε α : Type} [DecidableEq ε] [DecidableEq α] : DecidableEq (Except ε α) :=
  fun x y =>
    match x, y with
    | .ok a, .ok b =>
      if h : a = b then .isTrue (congrArg Except.ok h)
      else .isFalse (fun hh => h (Except.ok.inj hh))
    | .error a, .error b =>
      if h : a = b then .isTrue (congrArg Except.error h)
      else .isFalse (fun hh => h (Except.error.inj hh))
    | .ok _, .error _ => .isFalse (fun hh => Except.noConfusion hh)
    | .error _, .ok _ => .isFalse (fun hh => Except.noConfusion hh)

/-- Function `qstring` of the source.  Parameter values reaching it in the
claims are strings, and JS `String(val)` is the identity on strings. -/
def qstring (v : List Char) : Except Err (List Char) :=
  if tokenTest v then .ok v
  else if v.length > 0 && !textTest v then .error .invalidParameterValue
  else .ok (Char.ofNat 34 :: quoteEscape v ++ [Char.ofNat 34])

/-- Class `ContentType` of the source.  The `parameters` record is modelled
as an association list in property-insertion order; a JS object has no
duplicate keys, which theorems about caller-built values state as a
`Nodup` hypothesis on the key list. -/
structure ContentType where
  type : List Char
  parameters : List (List Char × List Char)
deriving DecidableEq

/-- Property read `m[k]` on the object model (first binding wins; lists built
by `objSet` from `[]` have distinct keys). -/
def jsGet? : List (List Char × List Char) → List Char → Option (List Char)
  | [], _ => none
  | (k', v') :: m, k => if k' = k then some v' else jsGet? m k

/-- Property read defaulting like a total lookup (only used on keys of the
object, where it agrees with `jsGet?`). -/
def jsGet (m : List (List Char × List Char)) (k : List Char) : List Char :=
  (jsGet? m k).getD []

/-- Property write `m[k] = v` on the object model: an existing key keeps its
position and gets the new value, a new key is appended. -/
def objSet : List (List Char × List Char) → List Char → List Char →
    List (List Char × List Char)
  | [], k, v => [(k, v)]
  | (k', v') :: m, k, v =>
    if k' = k then (k', v) :: m else (k', v') :: objSet m k v

/-- Keys of `parameters` in the order `Object.keys(...).sort()` yields them:
JS `sort()` on unique string keys is the lexicographic order on UTF-16 code
units, i.e. the linear order on `List Char`. -/
def sortedKeys (m : List (List Char × List Char)) : List (List Char) :=
  List.insertionSort (· ≤ ·) (m.map Prod.fst)

/-- The for-loop of `format`, folding the sorted key list into the output
string (`acc` is the `string` accumulator of the source). -/
def formatParams (m : List (List Char × List Char)) :
    List (List Char) → List Char → Except Err (List Char)
  | [], acc => .ok acc
  | k :: ks, acc =>
    if !tokenTest k then .error .invalidParameterName
    else
      match qstring (jsGet m k) with
      | .error e => .error e
      | .ok q =>
        formatParams m ks (acc ++ [Char.ofNat 59, Char.ofNat 32] ++ k
          ++ [Char.ofNat 61] ++ q)

/-- Function `format` of the source.  The `!obj || typeof obj !== 'object'`
and `typeof parameters == 'object'` guards are vacuous in the model (the
argument is always an object with an object `parameters`), and `!type` is
subsumed by `TYPE_REGEXP` failing on the empty string. -/
def format (obj : ContentType) : Except Err (List Char) :=
  if !typeTest obj.type then .error .invalidType
  else formatParams obj.parameters (sortedKeys obj.parameters) obj.type

/-- JS `String.prototype.trim`. -/
def jsTrim (s : List Char) : List Char :=
  ((s.dropWhile wsChar).reverse.dropWhile wsChar).reverse

/-- JS `String.prototype.indexOf` for a single character (`-1` becomes `none`). -/
def jsIndexOf (s : List Char) (c : Char) : Option Nat := s.findIdx? (· = c)

/-- The space character matched by the literal space-star pieces of `PARAM_REGEXP`. -/
def spaceChar (c : Char) : Bool := c.toNat = 32

/-- Scanner for `(?:qdtext|\\[qpair])*`, the body of the quoted-string branch
of `PARAM_REGEXP`: returns the matched body and the unconsumed rest.  The
star is deterministic: stopping earlier can never let the mandatory closing
quote match, since a qdtext character and a backslash both differ from it. -/
def qsBody : List Char → List Char × List Char
  | [] => ([], [])
  | [c] =>
    if qdtextChar c then (c :: (qsBody []).1, (qsBody []).2)
    else ([], [c])
  | c :: d :: r2 =>
    if qdtextChar c then (c :: (qsBody (d :: r2)).1, (qsBody (d :: r2)).2)
    else if c.toNat = 92 then
      if qpairChar d then (c :: d :: (qsBody r2).1, (qsBody r2).2)
      else ([], c :: d :: r2)
    else ([], c :: d :: r2)

/-- The value group of `PARAM_REGEXP`: a quoted string (tried first; when the
input starts with a double quote the token branch cannot match anyway) or a
token.  Returns the raw captured value (quotes included) and the rest. -/
def matchValue (l : List Char) : Option (List Char × List Char) :=
  match l with
  | c :: r =>
    if c.toNat = 34 then
      match (qsBody r).2 with
      | e :: r3 =>
        if e.toNat = 34 then some (c :: ((qsBody r).1 ++ [e]), r3) else none
      | [] => none
    else
      if (l.takeWhile tchar).isEmpty then none
      else some (l.takeWhile tchar, l.dropWhile tchar)
  | [] => none

/-- Tail of an anchored `PARAM_REGEXP` match after `; *name *= *`: the value
group followed by the trailing space-star. -/
def matchParamValue (name r5 : List Char) :
    Option (List Char × List Char × List Char) :=
  match matchValue r5 with
  | some (v, r6) => some (name, v, r6.dropWhile spaceChar)
  | none => none

/-- Tail of an anchored `PARAM_REGEXP` match after `; *name *`: the literal
`=`, then spaces, then the value. -/
def matchParamEq (name : List Char) :
    List Char → Option (List Char × List Char × List Char)
  | e :: r4 =>
    if e.toNat = 61 then matchParamValue name (r4.dropWhile spaceChar) else none
  | [] => none

/-- Tail of an anchored `PARAM_REGEXP` match after `; *`: the greedy token
name (empty means no match), spaces, then the `= value` tail. -/
def matchParamName (r1 : List Char) :
    Option (List Char × List Char × List Char) :=
  if (r1.takeWhile tchar).isEmpty then none
  else matchParamEq (r1.takeWhile tchar) ((r1.dropWhile tchar).dropWhile spaceChar)

/-- One anchored match of `PARAM_REGEXP = /; *([tchar]+) *= *(value) */g`:
returns the two capture groups (name, raw value) and the unconsumed rest.
All quantifiers are deterministic because no space is a `tchar`, an `=` or
the start of a value, and the value branches are handled in `matchValue`
and `qsBody`. -/
def matchParam : List Char → Option (List Char × List Char × List Char)
  | c :: r0 =>
    if c.toNat = 59 then matchParamName (r0.dropWhile spaceChar) else none
  | [] => none

/-- The `while ((match = PARAM_REGEXP.exec(header)))` loop of `parse`, with
the `match.index !== index` and final `index != header.length` checks.  The
global `exec` scan is equivalent to anchored matching: a match found later
than the cursor triggers the same `invalid parameter format` error as no
match at the cursor (see the loop in the source, lines 144-161).  Matching is
driven by a fuel argument for structural recursion; every successful match
consumes at least the leading `;`, so `l.length + 1` fuel is never
exhausted (`scanParamsFuel_big`). -/
def scanParamsFuel : Nat → List Char → Option (List (List Char × List Char))
  | 0, _ => none
  | _ + 1, [] => some []
  | fuel + 1, c :: r =>
    match matchParam (c :: r) with
    | some (k, v, rest) => (scanParamsFuel fuel rest).map (fun ps => (k, v) :: ps)
    | none => none

def scanParams (l : List Char) : Option (List (List Char × List Char)) :=
  scanParamsFuel (l.length + 1) l

/-- JS `String.prototype.substring` (clamps both indices to the length and
swaps them when out of order). -/
def jsSubstring (s : List Char) (a b : Nat) : List Char :=
  let a' := min a s.length
  let b' := min b s.length
  (s.take (max a' b')).drop (min a' b')

/-- Global replacement by `QESC_REGEXP = /\\([\x0b\x20-\xff])/g` of every
escape pair with its second character, scanning left to right. -/
def qescReplace : List Char → List Char
  | [] => []
  | [c] => [c]
  | c :: d :: rest =>
    if c.toNat = 92 && qpairChar d then d :: qescReplace rest
    else c :: qescReplace (d :: rest)

/-- The quoted-value handling of the parse loop:
`value.substring(1, value.length - 2).replace(QESC_REGEXP, '$1')` when the
raw value starts with a double quote. -/
def processValue (v : List Char) : List Char :=
  if v.head? = some (Char.ofNat 34) then
    qescReplace (jsSubstring v 1 (v.length - 2))
  else v

/-- Per-iteration processing of a captured parameter:
`key = match[1].toLowerCase()` and the quoted-value handling of `match[2]`. -/
def processPair (kv : List Char × List Char) : List Char × List Char :=
  (jsToLower kv.1, processValue kv.2)

/-- The assignments `obj.parameters[key] = value` over the scanned pairs. -/
def buildParams (ps : List (List Char × List Char)) :
    List (List Char × List Char) :=
  ps.foldl (fun m kv => objSet m kv.1 kv.2) []

/-- Body of `parse` from `let index = header.indexOf(';')` on, for a string
header. -/
def parseHeader (s : List Char) : Except Err ContentType :=
  match jsIndexOf s (Char.ofNat 59) with
  | none =>
    let t := jsTrim s
    if typeTest t then .ok ⟨jsToLower t, []⟩ else .error .invalidMediaType
  | some i =>
    let t := jsTrim (s.take i)
    if typeTest t then
      match scanParams (s.drop i) with
      | some ps => .ok ⟨jsToLower t, buildParams (ps.map processPair)⟩
      | none => .error .invalidParameterFormat
    else .error .invalidMediaType

/-- Runtime shape of a request/response-like argument of `parse`, recording
exactly the facts `getcontenttype` inspects: the two `instanceof` tests, the
presence of a `getHeader` function and of an object-typed `headers`
property, and the `content-type` lookup results (`some` when the lookup
yields a string, `none` otherwise). -/
structure JsIncoming where
  isResponse : Bool
  hasGetHeader : Bool
  getHeaderString : Option (List Char)
  isRequest : Bool
  hasHeaders : Bool
  headersContentType : Option (List Char)
deriving DecidableEq

/-- Function `getcontenttype` of the source: the `instanceof`-guarded lookup
followed by the `typeof header !== 'string'` check. -/
def getcontenttype (o : JsIncoming) : Except Err (List Char) :=
  let header : Option (List Char) :=
    if o.isResponse && o.hasGetHeader then o.getHeaderString
    else if o.isRequest && o.hasHeaders then o.headersContentType
    else none
  match header with
  | some h => .ok h
  | none => .error .contentTypeMissing

/-- Argument of `parse`: a string or a request/response-like object (the
falsy guard rejects the empty string; objects are always truthy). -/
inductive ParseInput
  | str (s : List Char)
  | obj (o : JsIncoming)

/-- Function `parse` of the source. -/
def parse : ParseInput → Except Err ContentType
  | .str s => if s.isEmpty then .error .argumentRequired else parseHeader s
  | .obj o =>
    match getcontenttype o with
    | .ok h => parseHeader h
    | .error e => .error e

/-- Two characters with the same code are equal. -/
lemma charEqOfToNat {c : Char} {n : Nat} (h : c.toNat = n) (d : Char)
    (hd : d.toNat = n) : c = d := by
  apply Char.eq_of_val_eq
  apply UInt32.ext
  rw [show c.val.toNat = c.toNat from rfl, show d.val.toNat = d.toNat from rfl, h, hd]

/-- A run of spaces, as matched by one space-star piece of `PARAM_REGEXP`. -/
def AllSpaces (w : List Char) : Prop := ∀ c ∈ w, c = ' '

/-- A `token` of RFC 7230: one or more `tchar` characters. -/
def IsToken (w : List Char) : Prop := w ≠ [] ∧ ∀ c ∈ w, tchar c = true

/-- Body of a `quoted-string`: a sequence of `qdtext` characters and
`quoted-pair` escapes, as in the quoted branch of `PARAM_REGEXP`. -/
inductive QSBodyP : List Char → Prop
  | nil : QSBodyP []
  | qd {c : Char} {b : List Char} : qdtextChar c = true → QSBodyP b →
      QSBodyP (c :: b)
  | esc {c : Char} {b : List Char} : qpairChar c = true → QSBodyP b →
      QSBodyP ('\\' :: c :: b)

/-- A `quoted-string` with its surrounding double quotes. -/
def IsQuotedString (w : List Char) : Prop :=
  ∃ b, QSBodyP b ∧ w = '"' :: (b ++ ['"'])

/-- One well-formed parameter: `;`, optional spaces, a token name, optional
spaces, `=`, optional spaces, a token or quoted-string value, optional
trailing spaces — one full match of `PARAM_REGEXP`. -/
def IsParamPiece (p : List Char) : Prop :=
  ∃ (w1 w2 w3 w4 name val : List Char),
    AllSpaces w1 ∧ AllSpaces w2 ∧ AllSpaces w3 ∧ AllSpaces w4 ∧
    IsToken name ∧ (IsToken val ∨ IsQuotedString val) ∧
    p = ';' :: (w1 ++ name ++ w2 ++ '=' :: (w3 ++ val ++ w4))

/-- The region of the header after the media type is an exactly contiguous
sequence of well-formed parameters reaching the end of the string. -/
inductive ParamsTile : List Char → Prop
  | nil : ParamsTile []
  | cons {p r : List Char} : IsParamPiece p → ParamsTile r →
      ParamsTile (p ++ r)

lemma spaceChar_eq {c : Char} (h : spaceChar c = true) : c = ' ' :=
  charEqOfToNat (by simpa [spaceChar] using h) _ (by decide)

lemma space_split (l : List Char) :
    ∃ w, AllSpaces w ∧ l = w ++ l.dropWhile spaceChar :=
  ⟨l.takeWhile spaceChar,
   fun _ hc => spaceChar_eq (List.mem_takeWhile_imp hc),
   (List.takeWhile_append_dropWhile ..).symm⟩

lemma qsBody_sound : ∀ l : List Char,
    l = (qsBody l).1 ++ (qsBody l).2 ∧ QSBodyP (qsBody l).1
  | [] => ⟨rfl, QSBodyP.nil⟩
  | [c] => by
    by_cases hq : qdtextChar c = true
    · rw [qsBody, if_pos hq]
      exact ⟨rfl, QSBodyP.qd hq QSBodyP.nil⟩
    · rw [qsBody, if_neg hq]
      exact ⟨rfl, QSBodyP.nil⟩
  | c :: d :: r2 => by
    by_cases hq : qdtextChar c = true
    · have ih := qsBody_sound (d :: r2)
      rw [qsBody, if_pos hq]
      exact ⟨by rw [List.cons_append, ← ih.1], QSBodyP.qd hq ih.2⟩
    · by_cases hb : c.toNat = 92
      · rw [qsBody, if_neg hq, if_pos hb]
        by_cases hp : qpairChar d = true
        · have ih := qsBody_sound r2
          have hc : c = '\\' := charEqOfToNat hb _ (by decide)
          rw [if_pos hp]
          refine ⟨by rw [List.cons_append, List.cons_append, ← ih.1], ?_⟩
          rw [hc]
          exact QSBodyP.esc hp ih.2
        · rw [if_neg hp]
          exact ⟨rfl, QSBodyP.nil⟩
      · rw [qsBody, if_neg hq, if_neg hb]
        exact ⟨rfl, QSBodyP.nil⟩

lemma matchValue_sound {l v r : List Char} (h : matchValue l = some (v, r)) :
    l = v ++ r ∧ (IsToken v ∨ IsQuotedString v) := by
  match l with
  | [] => simp [matchValue] at h
  | c :: r0 =>
    simp only [matchValue] at h
    by_cases hq : c.toNat = 34
    · rw [if_pos hq] at h
      have hqs := qsBody_sound r0
      split at h
      · rename_i e r3 h2
        split at h
        · rename_i he
          simp only [Option.some.injEq, Prod.mk.injEq] at h
          obtain ⟨hv, hr⟩ := h
          subst hv
          subst hr
          constructor
          · rw [List.cons_append, List.append_assoc, List.singleton_append,
              ← h2, ← hqs.1]
          · right
            refine ⟨(qsBody r0).1, hqs.2, ?_⟩
            rw [charEqOfToNat hq '"' (by decide), charEqOfToNat he '"' (by decide)]
        · exact absurd h (by simp)
      · exact absurd h (by simp)
    · rw [if_neg hq] at h
      split at h
      · exact absurd h (by simp)
      · rename_i hne
        simp only [Option.some.injEq, Prod.mk.injEq] at h
        obtain ⟨hv, hr⟩ := h
        subst hv
        subst hr
        refine ⟨(List.takeWhile_append_dropWhile ..).symm, Or.inl ⟨?_, ?_⟩⟩
        · intro hnil
          rw [hnil] at hne
          simp at hne
        · exact fun _ hc => List.mem_takeWhile_imp hc

lemma matchParamValue_sound {name r5 k v r : List Char}
    (h : matchParamValue name r5 = some (k, v, r)) :
    k = name ∧ ∃ w4, AllSpaces w4 ∧ r5 = v ++ (w4 ++ r) ∧
      (IsToken v ∨ IsQuotedString v) := by
  unfold matchParamValue at h
  split at h
  · rename_i v' r6 hmv
    simp only [Option.some.injEq, Prod.mk.injEq] at h
    obtain ⟨hk, hv, hr⟩ := h
    subst hk
    subst hv
    subst hr
    obtain ⟨hsplit, hkind⟩ := matchValue_sound hmv
    obtain ⟨w4, hw4, hr6⟩ := space_split r6
    exact ⟨rfl, w4, hw4, by conv_lhs => rw [hsplit, hr6], hkind⟩
  · exact absurd h (by simp)

lemma matchParamEq_sound {name r3 k v r : List Char}
    (h : matchParamEq name r3 = some (k, v, r)) :
    k = name ∧ ∃ w3 w4, AllSpaces w3 ∧ AllSpaces w4 ∧
      r3 = '=' :: (w3 ++ (v ++ (w4 ++ r))) ∧
      (IsToken v ∨ IsQuotedString v) := by
  match r3 with
  | [] => simp [matchParamEq] at h
  | e :: r4 =>
    rw [matchParamEq] at h
    by_cases he : e.toNat = 61
    · rw [if_pos he] at h
      obtain ⟨hk, w4, hw4, hr5, hkind⟩ := matchParamValue_sound h
      obtain ⟨w3, hw3, hr4⟩ := space_split r4
      refine ⟨hk, w3, w4, hw3, hw4, ?_, hkind⟩
      rw [show e = '=' from charEqOfToNat he _ (by decide), hr4, hr5]
    · rw [if_neg he] at h
      exact absurd h (by simp)

lemma matchParamName_sound {r1 k v r : List Char}
    (h : matchParamName r1 = some (k, v, r)) :
    IsToken k ∧ ∃ w2 w3 w4,
      AllSpaces w2 ∧ AllSpaces w3 ∧ AllSpaces w4 ∧
      r1 = k ++ (w2 ++ ('=' :: (w3 ++ (v ++ (w4 ++ r))))) ∧
      (IsToken v ∨ IsQuotedString v) := by
  unfold matchParamName at h
  split at h
  · exact absurd h (by simp)
  · rename_i hne
    obtain ⟨hk, w3, w4, hw3, hw4, hr3, hkind⟩ := matchParamEq_sound h
    obtain ⟨w2, hw2, hrt⟩ := space_split (r1.dropWhile tchar)
    subst hk
    refine ⟨⟨?_, fun _ hc => List.mem_takeWhile_imp hc⟩, w2, w3, w4, hw2, hw3, hw4, ?_, hkind⟩
    · intro hnil
      rw [hnil] at hne
      simp at hne
    · conv_lhs => rw [← List.takeWhile_append_dropWhile (p := tchar) (l := r1)]
      rw [hrt, hr3]

lemma matchParam_sound {l k v r : List Char}
    (h : matchParam l = some (k, v, r)) :
    ∃ p, IsParamPiece p ∧ p ≠ [] ∧ l = p ++ r := by
  match l with
  | [] => simp [matchParam] at h
  | c :: r0 =>
    rw [matchParam] at h
    by_cases hc : c.toNat = 59
    · rw [if_pos hc] at h
      obtain ⟨htok, w2, w3, w4, hw2, hw3, hw4, hr1, hkind⟩ := matchParamName_sound h
      obtain ⟨w1, hw1, hr0⟩ := space_split r0
      refine ⟨';' :: (w1 ++ k ++ w2 ++ '=' :: (w3 ++ v ++ w4)),
        ⟨w1, w2, w3, w4, k, v, hw1, hw2, hw3, hw4, htok, hkind, rfl⟩,
        by simp, ?_⟩
      rw [show c = ';' from charEqOfToNat hc _ (by decide), hr0, hr1]
      simp [List.append_assoc]
    · rw [if_neg hc] at h
      exact absurd h (by simp)

lemma scanParamsFuel_sound :
    ∀ (fuel : Nat) (l : List Char) (ps : List (List Char × List Char)),
      scanParamsFuel fuel l = some ps → ParamsTile l := by
  intro fuel
  induction fuel with
  | zero => intro l ps h; simp [scanParamsFuel] at h
  | succ n ih =>
    intro l ps h
    match l with
    | [] => exact ParamsTile.nil
    | c :: r =>
      rw [scanParamsFuel] at h
      cases hm : matchParam (c :: r) with
      | none => rw [hm] at h; exact absurd h (by simp)
      | some kvr =>
        obtain ⟨k, v, rest⟩ := kvr
        rw [hm] at h
        simp only [Option.map_eq_some'] at h
        obtain ⟨ps', hps, -⟩ := h
        obtain ⟨p, hp, -, heq⟩ := matchParam_sound hm
        rw [heq]
        exact ParamsTile.cons hp (ih rest ps' hps)

lemma matchParam_rest_length {l k v r : List Char}
    (h : matchParam l = some (k, v, r)) : r.length < l.length := by
  obtain ⟨p, -, hne, heq⟩ := matchParam_sound h
  rw [heq, List.length_append]
  exact Nat.lt_add_of_pos_left (List.length_pos.mpr hne)

/-- The fuel argument of `scanParamsFuel` is irrelevant as soon as it
exceeds the input length: every match consumes at least one character, so
the `l.length + 1` budget used by `scanParams` is never exhausted and the
fueled scanner is an exact model of the source's `exec` loop. -/
lemma scanParamsFuel_congr :
    ∀ (f1 f2 : Nat) (l : List Char), l.length < f1 → l.length < f2 →
      scanParamsFuel f1 l = scanParamsFuel f2 l := by
  intro f1
  induction f1 with
  | zero => intro f2 l h1 _; exact absurd h1 (Nat.not_lt_zero _)
  | succ n ih =>
    intro f2 l h1 h2
    match f2, h2 with
    | m + 1, h2 =>
      match l with
      | [] => rfl
      | c :: r =>
        rw [scanParamsFuel, scanParamsFuel]
        cases hm : matchParam (c :: r) with
        | none => rfl
        | some kvr =>
          obtain ⟨k, v, rest⟩ := kvr
          have hlt := matchParam_rest_length hm
          dsimp only
          rw [ih m rest (Nat.lt_of_lt_of_le hlt (Nat.lt_succ_iff.mp h1))
            (Nat.lt_of_lt_of_le hlt (Nat.lt_succ_iff.mp h2))]

lemma paramsTile_ne_nil_mem_eq {l : List Char} (h : ParamsTile l) :
    l = [] ∨ ∃ c ∈ l, c = '=' := by
  cases h with
  | nil => exact Or.inl rfl
  | cons hp _ =>
    right
    obtain ⟨w1, w2, w3, w4, name, val, -, -, -, -, -, -, hpe⟩ := hp
    subst hpe
    exact ⟨'=', by simp, rfl⟩

/-- Claim C6: for every input containing a `;` (first occurrence at index
`i`) whose media-type prefix passes the type test, if the region from that
`;` to the end of the string is not an exactly contiguous sequence of
well-formed parameters reaching the end — stray characters between
parameters, an unparsable fragment, a dangling unterminated quote, or
characters left after the last parameter — then `parse` fails with the
`invalid parameter format` error. -/
theorem C6_parse_invalid_parameter_format (s : List Char) (i : Nat)
    (hi : jsIndexOf s (Char.ofNat 59) = some i)
    (ht : typeTest (jsTrim (s.take i)) = true)
    (hnt : ¬ ParamsTile (s.drop i)) :
    parse (.str s) = .error .invalidParameterFormat := by
  have hs : s.isEmpty = false := by
    cases s with
    | nil => simp [jsIndexOf] at hi
    | cons a l => rfl
  rw [parse, hs]
  simp only [Bool.false_eq_true, if_false]
  rw [parseHeader, hi]
  simp only [ht, if_true]
  cases hsc : scanParams (s.drop i) with
  | none => rfl
  | some ps => exact absurd (scanParamsFuel_sound _ _ _ hsc) hnt

/-- Witness for C6 at the concrete input `text/plain; x`, whose parameter
region `; x` is not a well-formed parameter list (it contains no `=`). -/
theorem C6_parse_invalid_parameter_format_witness :
    jsIndexOf ("text/plain; x".toList) (Char.ofNat 59) = some 10 ∧
    typeTest (jsTrim (("text/plain; x".toList).take 10)) = true ∧
    parse (.str ("text/plain; x".toList)) = .error .invalidParameterFormat := by
  refine ⟨by decide, by decide,
    C6_parse_invalid_parameter_format _ 10 (by decide) (by decide) ?_⟩
  intro h
  rcases paramsTile_ne_nil_mem_eq h with h1 | ⟨c, hc, hceq⟩
  · exact absurd h1 (by decide)
  · subst hceq
    exact absurd hc (by decide)

/-- Claim C1 (code divergence): at the input `text/html; charset="UTF-8"`
the parser stores `UTF-` for `charset`, not the `UTF-8` the claim states:
`value.substring(1, value.length - 2)` drops the closing quote and the last
content character together. -/
theorem C1_quoted_value_truncated :
    parse (.str ("text/html; charset=\"UTF-8\"".toList)) =
      .ok ⟨"text/html".toList, [("charset".toList, "UTF-".toList)]⟩ := by
  decide

/-- Claim C2 (code divergence): the round trip fails at the `MediaType`
with valid type `text/html` and the token name `a` bound to `b c`, a
non-empty value inside the quoted-text set: `format` emits
`text/html; a="b c"`, but parsing that back yields `b ` for `a`. -/
theorem C2_round_trip_fails :
    format ⟨"text/html".toList, [("a".toList, "b c".toList)]⟩ =
      .ok ("text/html; a=\"b c\"".toList) ∧
    parse (.str ("text/html; a=\"b c\"".toList)) =
      .ok ⟨"text/html".toList, [("a".toList, "b ".toList)]⟩ ∧
    (⟨"text/html".toList, [("a".toList, "b ".toList)]⟩ : ContentType) ≠
      ⟨"text/html".toList, [("a".toList, "b c".toList)]⟩ := by
  decide

/-- Claim C5: every string of the rejection set fails with the
`invalid media type` error. -/
theorem C5_rejection_set :
    parse (.str (" ".toList)) = .error .invalidMediaType ∧
    parse (.str ("null".toList)) = .error .invalidMediaType ∧
    parse (.str ("undefined".toList)) = .error .invalidMediaType ∧
    parse (.str ("/".toList)) = .error .invalidMediaType ∧
    parse (.str ("text / plain".toList)) = .error .invalidMediaType ∧
    parse (.str ("text/;plain".toList)) = .error .invalidMediaType ∧
    parse (.str ("text/\"plain\"".toList)) = .error .invalidMediaType ∧
    parse (.str ("text/p£ain".toList)) = .error .invalidMediaType ∧
    parse (.str ("text/(plain)".toList)) = .error .invalidMediaType ∧
    parse (.str ("text/@plain".toList)) = .error .invalidMediaType ∧
    parse (.str ("text/plain,wrong".toList)) = .error .invalidMediaType := by
  decide

/-- Claim C9 (code divergence): a plain request-like object exposing a
header lookup with `content-type: text/html` — the shape the repository's
own tests build — is rejected with the missing-header error, because
`getcontenttype` additionally requires the object to be an
`http.IncomingMessage` instance; an actual instance parses to `text/html`.
An object with neither lookup nor getter gets the same missing-header
error, which is a distinct kind from the argument-required error. -/
theorem C9_plain_object_rejected :
    parse (.obj ⟨false, false, none, false, true, some ("text/html".toList)⟩) =
      .error .contentTypeMissing ∧
    parse (.obj ⟨false, false, none, true, true, some ("text/html".toList)⟩) =
      .ok ⟨"text/html".toList, []⟩ ∧
    parse (.obj ⟨false, false, none, false, false, none⟩) =
      .error .contentTypeMissing ∧
    Err.contentTypeMissing ≠ Err.argumentRequired := by
  decide

/-- Claim C10: the empty string fails with the argument-required error (the
falsy-argument guard fires before any grammar test), not with the
`invalid media type` error. -/
theorem C10_empty_string_argument_required :
    parse (.str ("".toList)) = .error .argumentRequired ∧
    parse (.str ("".toList)) ≠ .error .invalidMediaType := by
  decide

/-- Claim C3 counterexample: `format` with a valid type and the token name
`a` bound to the empty string succeeds and emits `a=""` instead of failing:
the `str.length > 0` guard in `qstring` skips the rejection for the empty
string, which is then wrapped in quotes. -/
theorem C3_empty_value_formats :
    format ⟨"text/plain".toList, [("a".toList, "".toList)]⟩ =
      .ok ("text/plain; a=\"\"".toList) ∧
    qstring ("".toList) = .ok ("\"\"".toList) := by
  decide

/-- Claim C3 (amended): for every valid type and valid token parameter name
bound to the empty string, `format` succeeds and emits the empty quoted
string `name=""`; the `invalid parameter value` rejection only applies to
non-empty values failing the quoted-text test. -/
theorem C3_amended_empty_value_emitted (t n : List Char)
    (ht : typeTest t = true) (hn : tokenTest n = true) :
    format ⟨t, [(n, [])]⟩ =
      .ok (t ++ [Char.ofNat 59, Char.ofNat 32] ++ n ++ [Char.ofNat 61] ++
        "\"\"".toList) := by
  simp [format, ht, hn, sortedKeys, formatParams, jsGet, jsGet?,
    show qstring [] = .ok ("\"\"".toList) from rfl]

/-- Witness for the amended C3 at type `text/plain` and name `a`. -/
theorem C3_amended_empty_value_emitted_witness :
    typeTest ("text/plain".toList) = true ∧
    tokenTest ("a".toList) = true ∧
    format ⟨"text/plain".toList, [("a".toList, [])]⟩ =
      .ok ("text/plain".toList ++ [Char.ofNat 59, Char.ofNat 32] ++
        "a".toList ++ [Char.ofNat 61] ++ "\"\"".toList) :=
  ⟨by decide, by decide,
    C3_amended_empty_value_emitted ("text/plain".toList) ("a".toList)
      (by decide) (by decide)⟩

/-- The quoted-text character set exactly as the claim words it: horizontal
tab (0x09), space, a visible ASCII character other than the double quote
and the backslash, or a code unit in 0x80-0xFF. -/
def ClaimTextChar (c : Char) : Prop :=
  c.toNat = 9 ∨ c.toNat = 32 ∨
    (33 ≤ c.toNat ∧ c.toNat ≤ 126 ∧ c.toNat ≠ 34 ∧ c.toNat ≠ 92) ∨
    (128 ≤ c.toNat ∧ c.toNat ≤ 255)

/-- Acceptance by the claimed quoted-text set: non-empty and within
`ClaimTextChar`. -/
def ClaimTextOk (s : List Char) : Prop := s ≠ [] ∧ ∀ c ∈ s, ClaimTextChar c

instance : DecidablePred ClaimTextChar := fun c => by
  unfold ClaimTextChar
  infer_instance

instance : DecidablePred ClaimTextOk := fun s => by
  unfold ClaimTextOk
  infer_instance

/-- The quoted-text character set as the code has it (amended claim):
vertical tab (0x0B), anything in 0x20-0x7E — the double quote and the
backslash included — or a code unit in 0x80-0xFF. -/
def AmendedTextChar (c : Char) : Prop :=
  c.toNat = 11 ∨ (32 ≤ c.toNat ∧ c.toNat ≤ 126) ∨
    (128 ≤ c.toNat ∧ c.toNat ≤ 255)

instance : DecidablePred AmendedTextChar := fun c => by
  unfold AmendedTextChar
  infer_instance

/-- Claim C4 counterexample: the horizontal-tab string lies inside the
claim's quoted-text set yet `TEXT_REGEXP` rejects it (its class starts at
0x0B, not 0x09); the double-quote string is outside the claim's set yet
accepted; and `format` rejects — rather than quotes — the value `x<TAB>y`
made of visible ASCII plus a horizontal tab. -/
theorem C4_text_test_counterexample :
    ClaimTextOk ("\t".toList) ∧ textTest ("\t".toList) = false ∧
    textTest ("\"".toList) = true ∧ ¬ ClaimTextOk ("\"".toList) ∧
    format ⟨"text/plain".toList, [("a".toList, "x\ty".toList)]⟩ =
      .error .invalidParameterValue := by
  decide

lemma textChar_iff (c : Char) : textChar c = true ↔ AmendedTextChar c := by
  simp [textChar, AmendedTextChar, Bool.or_eq_true, Bool.and_eq_true,
    decide_eq_true_eq, or_assoc]

lemma textTest_iff (s : List Char) :
    textTest s = true ↔ (s ≠ [] ∧ ∀ c ∈ s, AmendedTextChar c) := by
  simp only [textTest, Bool.and_eq_true, Bool.not_eq_true', List.all_eq_true,
    textChar_iff]
  constructor
  · exact fun h => ⟨fun hnil => by simp [hnil] at h, h.2⟩
  · exact fun h => ⟨by simpa [List.isEmpty_iff] using h.1, h.2⟩

/-- Claim C4 (amended): the quoted-text test accepts `s` iff `s` is
non-empty and every character is a vertical tab (0x0B), in 0x20-0x7E (the
double quote and the backslash included), or in 0x80-0xFF; consequently
`format` quotes — rather than rejects — any non-token parameter value
within this set, escaping its double quotes and backslashes. -/
theorem C4_amended_text_test (s : List Char) :
    (textTest s = true ↔ (s ≠ [] ∧ ∀ c ∈ s, AmendedTextChar c)) ∧
    (∀ t n, typeTest t = true → tokenTest n = true → tokenTest s = false →
      s ≠ [] → (∀ c ∈ s, AmendedTextChar c) →
      format ⟨t, [(n, s)]⟩ =
        .ok (t ++ [Char.ofNat 59, Char.ofNat 32] ++ n ++ [Char.ofNat 61] ++
          (Char.ofNat 34 :: quoteEscape s ++ [Char.ofNat 34]))) := by
  refine ⟨textTest_iff s, fun t n ht hn htok hne hall => ?_⟩
  have htext : textTest s = true := (textTest_iff s).mpr ⟨hne, hall⟩
  have hq : qstring s =
      .ok (Char.ofNat 34 :: quoteEscape s ++ [Char.ofNat 34]) := by
    simp [qstring, htok, htext]
  simp [format, ht, hn, sortedKeys, formatParams, jsGet, jsGet?, hq]

/-- Witness for the amended C4 at the value `b c`, whose space keeps it from
being a token, with type `text/plain` and name `a`. -/
theorem C4_amended_text_test_witness :
    (textTest ("b c".toList) = true ↔
      ("b c".toList ≠ [] ∧ ∀ c ∈ "b c".toList, AmendedTextChar c)) ∧
    (typeTest ("text/plain".toList) = true ∧
      tokenTest ("a".toList) = true ∧
      tokenTest ("b c".toList) = false ∧
      format ⟨"text/plain".toList, [("a".toList, "b c".toList)]⟩ =
        .ok ("text/plain".toList ++ [Char.ofNat 59, Char.ofNat 32] ++
          "a".toList ++ [Char.ofNat 61] ++
          (Char.ofNat 34 :: quoteEscape ("b c".toList) ++ [Char.ofNat 34]))) :=
  ⟨(C4_amended_text_test ("b c".toList)).1,
    by decide, by decide, by decide,
    (C4_amended_text_test ("b c".toList)).2 ("text/plain".toList) ("a".toList)
      (by decide) (by decide) (by decide) (by decide) (by decide)⟩

/-- Value of the last occurrence of key `k` in the processed parameter
sequence: entries later in the list take precedence. -/
def lastVal : List (List Char × List Char) → List Char → Option (List Char)
  | [], _ => none
  | kv :: ps, k =>
    match lastVal ps k with
    | some v => some v
    | none => if kv.1 = k then some kv.2 else none

lemma jsGet?_objSet (m : List (List Char × List Char)) (k k' v : List Char) :
    jsGet? (objSet m k' v) k = if k' = k then some v else jsGet? m k := by
  induction m with
  | nil =>
    by_cases hk : k' = k <;> simp [objSet, jsGet?, hk]
  | cons kv m ih =>
    obtain ⟨k0, v0⟩ := kv
    rw [objSet]
    by_cases h0 : k0 = k'
    · rw [if_pos h0]
      subst h0
      by_cases hk : k0 = k <;> simp [jsGet?, hk]
    · rw [if_neg h0]
      by_cases hk : k0 = k
      · subst hk
        have hk' : ¬(k' = k0) := fun he => h0 he.symm
        simp [jsGet?, hk']
      · simp [jsGet?, hk, ih]

lemma jsGet?_foldl_objSet :
    ∀ (ps acc : List (List Char × List Char)) (k : List Char),
      jsGet? (ps.foldl (fun m kv => objSet m kv.1 kv.2) acc) k =
        match lastVal ps k with
        | some v => some v
        | none => jsGet? acc k := by
  intro ps
  induction ps with
  | nil => intro acc k; rfl
  | cons kv ps ih =>
    intro acc k
    rw [List.foldl_cons, ih, lastVal]
    cases lastVal ps k with
    | some v => rfl
    | none =>
      rw [jsGet?_objSet]
      by_cases hk : kv.1 = k <;> simp [hk]

/-- Claim C7: whenever the parameter region scans as a sequence of captured
parameters `ps` (and the media type is valid), `parse` succeeds — duplicate
names raise no error — and in the resulting mapping every name is bound to
the value of its last occurrence in the input (occurrences compared after
name lower-casing, values after unquoting). -/
theorem C7_last_write_wins (s : List Char) (i : Nat)
    (ps : List (List Char × List Char))
    (hi : jsIndexOf s (Char.ofNat 59) = some i)
    (ht : typeTest (jsTrim (s.take i)) = true)
    (hs : scanParams (s.drop i) = some ps) :
    parse (.str s) =
      .ok ⟨jsToLower (jsTrim (s.take i)), buildParams (ps.map processPair)⟩ ∧
    ∀ k, jsGet? (buildParams (ps.map processPair)) k =
      lastVal (ps.map processPair) k := by
  constructor
  · have hse : s.isEmpty = false := by
      cases s with
      | nil => simp [jsIndexOf] at hi
      | cons a l => rfl
    rw [parse, hse]
    simp only [Bool.false_eq_true, if_false]
    rw [parseHeader, hi]
    simp only [ht, if_true, hs]
  · intro k
    rw [buildParams, jsGet?_foldl_objSet]
    cases lastVal (ps.map processPair) k <;> rfl

/-- Witness for C7 at the input `text/html; a=1; A=2`, where the two
parameter names lower-case to the same `a` and the mapping keeps the later
value `2`. -/
theorem C7_last_write_wins_witness :
    jsIndexOf ("text/html; a=1; A=2".toList) (Char.ofNat 59) = some 9 ∧
    typeTest (jsTrim (("text/html; a=1; A=2".toList).take 9)) = true ∧
    scanParams (("text/html; a=1; A=2".toList).drop 9) =
      some [("a".toList, "1".toList), ("A".toList, "2".toList)] ∧
    parse (.str ("text/html; a=1; A=2".toList)) =
      .ok ⟨jsToLower (jsTrim (("text/html; a=1; A=2".toList).take 9)),
        buildParams ([("a".toList, "1".toList),
          ("A".toList, "2".toList)].map processPair)⟩ ∧
    jsGet? (buildParams ([("a".toList, "1".toList),
        ("A".toList, "2".toList)].map processPair)) ("a".toList) =
      lastVal ([("a".toList, "1".toList),
        ("A".toList, "2".toList)].map processPair) ("a".toList) :=
  ⟨by decide, by decide, by decide,
    (C7_last_write_wins ("text/html; a=1; A=2".toList) 9
      [("a".toList, "1".toList), ("A".toList, "2".toList)]
      (by decide) (by decide) (by decide)).1,
    (C7_last_write_wins ("text/html; a=1; A=2".toList) 9
      [("a".toList, "1".toList), ("A".toList, "2".toList)]
      (by decide) (by decide) (by decide)).2 ("a".toList)⟩

/-- A parameter value `qstring` accepts: a token, the empty string, or a
string inside the quoted-text set. -/
def Representable (v : List Char) : Prop :=
  tokenTest v = true ∨ v = [] ∨ textTest v = true

instance : DecidablePred Representable := fun v => by
  unfold Representable
  infer_instance

/-- The string `qstring` returns when it succeeds: the value itself for a
token, otherwise the value quoted with `"` and `\` escaped. -/
def qstringStr (v : List Char) : List Char :=
  if tokenTest v then v
  else Char.ofNat 34 :: quoteEscape v ++ [Char.ofNat 34]

lemma qstring_eq_of_representable {v : List Char} (h : Representable v) :
    qstring v = .ok (qstringStr v) := by
  unfold qstring qstringStr
  by_cases htok : tokenTest v = true
  · simp [htok]
  · rcases h with h | h | h
    · exact absurd h htok
    · subst h
      simp [htok]
    · simp [htok, h]

lemma formatParams_ok (m : List (List Char × List Char)) :
    ∀ (ks : List (List Char)) (acc : List Char),
      (∀ k ∈ ks, tokenTest k = true ∧ Representable (jsGet m k)) →
      formatParams m ks acc =
        .ok (acc ++ (ks.map (fun k =>
          [Char.ofNat 59, Char.ofNat 32] ++ k ++ [Char.ofNat 61] ++
            qstringStr (jsGet m k))).flatten)
  | [], acc, _ => by simp [formatParams]
  | k :: ks, acc, h => by
    have hk := h k (by simp)
    rw [formatParams, if_neg (by simp [hk.1]),
      qstring_eq_of_representable hk.2]
    show formatParams m ks (acc ++ [Char.ofNat 59, Char.ofNat 32] ++ k ++
      [Char.ofNat 61] ++ qstringStr (jsGet m k)) = _
    rw [formatParams_ok m ks _ (fun x hx => h x (by simp [hx]))]
    simp [List.append_assoc]

lemma jsGet?_some_mem {ps : List (List Char × List Char)} {k v : List Char}
    (h : jsGet? ps k = some v) : (k, v) ∈ ps := by
  induction ps with
  | nil => simp [jsGet?] at h
  | cons kv m ih =>
    obtain ⟨k0, v0⟩ := kv
    rw [jsGet?] at h
    by_cases hk : k0 = k
    · rw [if_pos hk] at h
      obtain rfl := Option.some.inj h
      subst hk
      exact List.mem_cons_self ..
    · rw [if_neg hk] at h
      exact List.mem_cons_of_mem _ (ih h)

lemma jsGet?_none_iff {ps : List (List Char × List Char)} {k : List Char} :
    jsGet? ps k = none ↔ k ∉ ps.map Prod.fst := by
  induction ps with
  | nil => simp [jsGet?]
  | cons kv m ih =>
    obtain ⟨k0, v0⟩ := kv
    rw [jsGet?]
    by_cases hk : k0 = k
    · subst hk
      simp
    · rw [if_neg hk, ih]
      simp only [List.map_cons, List.mem_cons]
      constructor
      · intro hnm hor
        rcases hor with h1 | h2
        · exact hk h1.symm
        · exact hnm h2
      · exact fun hno hm => hno (Or.inr hm)

lemma jsGet?_eq_some_of_mem {ps : List (List Char × List Char)}
    (hnd : (ps.map Prod.fst).Nodup) {k v : List Char} (hm : (k, v) ∈ ps) :
    jsGet? ps k = some v := by
  induction ps with
  | nil => simp at hm
  | cons kv m ih =>
    obtain ⟨k0, v0⟩ := kv
    rw [List.map_cons, List.nodup_cons] at hnd
    rcases List.mem_cons.mp hm with h1 | h2
    · cases h1
      rw [jsGet?, if_pos rfl]
    · have hk : ¬(k0 = k) := by
        intro he
        subst he
        exact hnd.1 (List.mem_map.mpr ⟨(k0, v), h2, rfl⟩)
      rw [jsGet?, if_neg hk]
      exact ih hnd.2 h2

lemma jsGet?_perm {ps₁ ps₂ : List (List Char × List Char)}
    (hp : ps₁.Perm ps₂) (hnd : (ps₁.map Prod.fst).Nodup) (k : List Char) :
    jsGet? ps₁ k = jsGet? ps₂ k := by
  have hnd₂ : (ps₂.map Prod.fst).Nodup := (hp.map Prod.fst).nodup_iff.mp hnd
  cases h : jsGet? ps₁ k with
  | some v =>
    rw [jsGet?_eq_some_of_mem hnd₂ (hp.subset (jsGet?_some_mem h))]
  | none =>
    have h1 := jsGet?_none_iff.mp h
    have h2 : k ∉ ps₂.map Prod.fst := fun hm =>
      h1 ((hp.map Prod.fst).mem_iff.mpr hm)
    exact (jsGet?_none_iff.mpr h2).symm

/-- Claim C8: with a valid type, token parameter names and representable
values, `format` returns exactly the type followed by one `; name=value`
segment per parameter, the segments ordered lexicographically by name; the
output is invariant under permutation of the parameter list, hence a
deterministic function of the (type, parameter-set) pair. -/
theorem C8_format_sorted_deterministic (t : List Char)
    (ps₁ ps₂ : List (List Char × List Char))
    (ht : typeTest t = true)
    (hname : ∀ kv ∈ ps₁, tokenTest kv.1 = true)
    (hval : ∀ kv ∈ ps₁, Representable kv.2)
    (hnd : (ps₁.map Prod.fst).Nodup)
    (hperm : ps₁.Perm ps₂) :
    format ⟨t, ps₁⟩ =
      .ok (t ++ ((sortedKeys ps₁).map (fun k =>
        [Char.ofNat 59, Char.ofNat 32] ++ k ++ [Char.ofNat 61] ++
          qstringStr (jsGet ps₁ k))).flatten) ∧
    format ⟨t, ps₂⟩ = format ⟨t, ps₁⟩ ∧
    (sortedKeys ps₁).Sorted (· ≤ ·) ∧
    (sortedKeys ps₁).Perm (ps₁.map Prod.fst) := by
  have hkey : ∀ m : List (List Char × List Char),
      (m.map Prod.fst).Nodup → (∀ kv ∈ m, tokenTest kv.1 = true) →
      (∀ kv ∈ m, Representable kv.2) →
      ∀ k ∈ sortedKeys m, tokenTest k = true ∧ Representable (jsGet m k) := by
    intro m hm hn hv k hk
    rw [sortedKeys, List.mem_insertionSort] at hk
    obtain ⟨kv, hkv, hfst⟩ := List.mem_map.mp hk
    have hkm : (kv.1, kv.2) ∈ m := by simpa using hkv
    have hg : jsGet m k = kv.2 := by
      rw [jsGet, ← hfst, jsGet?_eq_some_of_mem hm hkm]
      rfl
    rw [hg, ← hfst]
    exact ⟨hn kv hkv, hv kv hkv⟩
  have h1 : format ⟨t, ps₁⟩ =
      .ok (t ++ ((sortedKeys ps₁).map (fun k =>
        [Char.ofNat 59, Char.ofNat 32] ++ k ++ [Char.ofNat 61] ++
          qstringStr (jsGet ps₁ k))).flatten) := by
    rw [format, if_neg (by simp [ht])]
    exact formatParams_ok ps₁ (sortedKeys ps₁) t (hkey ps₁ hnd hname hval)
  have hnd₂ : (ps₂.map Prod.fst).Nodup := (hperm.map Prod.fst).nodup_iff.mp hnd
  have hname₂ : ∀ kv ∈ ps₂, tokenTest kv.1 = true := fun kv hkv =>
    hname kv (hperm.mem_iff.mpr hkv)
  have hval₂ : ∀ kv ∈ ps₂, Representable kv.2 := fun kv hkv =>
    hval kv (hperm.mem_iff.mpr hkv)
  have hsort₁ : List.Sorted (α := List Char) (· ≤ ·) (sortedKeys ps₁) := by
    rw [sortedKeys]
    exact List.sorted_insertionSort _ _
  have hsort₂ : List.Sorted (α := List Char) (· ≤ ·) (sortedKeys ps₂) := by
    rw [sortedKeys]
    exact List.sorted_insertionSort _ _
  have hsk : sortedKeys ps₂ = sortedKeys ps₁ :=
    List.eq_of_perm_of_sorted
      ((List.perm_insertionSort _ _).trans
        ((hperm.map Prod.fst).symm.trans (List.perm_insertionSort _ _).symm))
      hsort₂ hsort₁
  have hget : ∀ k, jsGet ps₂ k = jsGet ps₁ k := fun k => by
    rw [jsGet, jsGet, jsGet?_perm hperm hnd k]
  have h2 : format ⟨t, ps₂⟩ = format ⟨t, ps₁⟩ := by
    rw [h1, format, if_neg (by simp [ht]),
      formatParams_ok ps₂ (sortedKeys ps₂) t (hkey ps₂ hnd₂ hname₂ hval₂), hsk]
    simp only [hget]
  refine ⟨h1, h2, ?_, ?_⟩
  · rw [sortedKeys]
    exact List.sorted_insertionSort _ _
  · rw [sortedKeys]
    exact List.perm_insertionSort _ _

/-- Witness for C8: the two-parameter mappings `{b: 1, a: 2}` and
`{a: 2, b: 1}` (insertion orders reversed) both format over type
`text/plain` to the same string with `a` before `b`. -/
theorem C8_format_sorted_deterministic_witness :
    typeTest ("text/plain".toList) = true ∧
    (∀ kv ∈ [("b".toList, "1".toList), ("a".toList, "2".toList)],
      tokenTest kv.1 = true) ∧
    (∀ kv ∈ [("b".toList, "1".toList), ("a".toList, "2".toList)],
      Representable kv.2) ∧
    ([("b".toList, "1".toList), ("a".toList, "2".toList)].map
      Prod.fst).Nodup ∧
    [("b".toList, "1".toList), ("a".toList, "2".toList)].Perm
      [("a".toList, "2".toList), ("b".toList, "1".toList)] ∧
    format ⟨"text/plain".toList,
        [("b".toList, "1".toList), ("a".toList, "2".toList)]⟩ =
      .ok ("text/plain".toList ++
        ((sortedKeys [("b".toList, "1".toList), ("a".toList, "2".toList)]).map
          (fun k => [Char.ofNat 59, Char.ofNat 32] ++ k ++ [Char.ofNat 61] ++
            qstringStr (jsGet [("b".toList, "1".toList),
              ("a".toList, "2".toList)] k))).flatten) ∧
    format ⟨"text/plain".toList,
        [("a".toList, "2".toList), ("b".toList, "1".toList)]⟩ =
      format ⟨"text/plain".toList,
        [("b".toList, "1".toList), ("a".toList, "2".toList)]⟩ := by
  have hperm : [("b".toList, "1".toList), ("a".toList, "2".toList)].Perm
      [("a".toList, "2".toList), ("b".toList, "1".toList)] :=
    List.Perm.swap _ _ _
  have h := C8_format_sorted_deterministic ("text/plain".toList)
    [("b".toList, "1".toList), ("a".toList, "2".toList)]
    [("a".toList, "2".toList), ("b".toList, "1".toList)]
    (by decide) (by decide) (by decide) (by decide) hperm
  exact ⟨by decide, by decide, by decide, by decide, hperm, h.1, h.2.1⟩

end CT
